import Mathlib

/-!
Shallow embedding of the two async correlation bridges of the repository:

* `src/connection.rs` — a request/response multiplexer over a websocket with
  reconnect-and-backoff, correlation IDs and per-request shared suspend cells
  (`ResponseFutureState`).
* `src/measurer.rs` — a completion registry that renders measurement items
  invisibly and wakes their futures once the rendered DOM element is attached.

Stateful Rust code becomes explicit state passing; `Arc<Mutex<_>>` /
`Rc<RefCell<_>>` shared cells become a heap (`cells : Nat → ResponseFutureState`
for the connection, `heap : List MeasItem` for the measurer) addressed by ids,
so that the sharing between the owner's table and the caller's future is
explicit.  `u64` arithmetic is `Nat` with `% 2^64` at the single overflow site
(`next_free_id` is incremented with `wrapping_add`).  Code that panics
(`unwrap`, `assert_eq!`) returns `Option`, `none` meaning the panic.
Side effects on the environment (frames sent on the websocket, backoff streams
scheduled, wakers woken, render requests) are returned in effect records.
-/

/-- Result of polling a future, mirroring `std::task::Poll`. -/
inductive PollRes (α : Type) where
  | Ready (value : α)
  | Pending
deriving DecidableEq

/-- State shared between a `RequestEntry` and its `ResponseFuture`
(`connection.rs`, `struct ResponseFutureState`).  The Rust `Waker` is
modelled as an opaque `Nat` identifier. -/
structure ResponseFutureState where
  response_message : Option String
  waker : Option Nat
deriving DecidableEq

/-- One outstanding request (`connection.rs`, `struct RequestEntry`):
the framed request text and the id of its shared suspend cell
(the `Arc<Mutex<ResponseFutureState>>` is modelled by a heap index). -/
structure RequestEntry where
  request : String
  future_state : Nat
deriving DecidableEq

/-- `RequestEntry::set_response`: stores the message in the shared cell and,
if a waker is registered, takes and wakes it.  Returns the new cell state and
the list of wakers woken (empty or a singleton). -/
def RequestEntry.set_response (st : ResponseFutureState) (message : String) :
    ResponseFutureState × List Nat :=
  let st1 : ResponseFutureState := { st with response_message := some message }
  match st1.waker with
  | some w => ({ st1 with waker := none }, [w])
  | none => (st1, [])

/-- `ResponseFuture::poll`: takes the stored response if present, otherwise
registers the caller's waker (overwriting any previous one) and is pending. -/
def ResponseFuture.poll (st : ResponseFutureState) (w : Nat) :
    PollRes String × ResponseFutureState :=
  match st.response_message with
  | some message => (PollRes.Ready message, { st with response_message := none })
  | none => (PollRes.Pending, { st with waker := some w })

/-- Messages handled by `Connection::update` (`connection.rs`, `enum Msg`). -/
inductive ConnMsg where
  | Opened
  | Closed
  | Failed
  | Received (packet : String)
  | Reconnect
deriving DecidableEq

/-- Observable side effects of one `Connection` operation: frames sent
(tagged with the generation of the websocket they were sent on), number of
backoff streams scheduled, whether a fresh websocket was created, and the
wakers woken. -/
structure ConnEffects where
  sent : List (Nat × String)
  backoffScheduled : Nat
  wsCreated : Bool
  woken : List Nat
deriving DecidableEq

/-- No observable effect. -/
def noEffects : ConnEffects := ⟨[], 0, false, []⟩

/-- `ConnectionData` (`connection.rs`): the websocket is modelled by a
generation counter `wsGen` (bumped whenever `create_websocket` runs),
`reconnector : Option<StreamHandle>` by its presence bit, the request table
`HashMap<u64, RequestEntry>` by an association list, and the shared
`ResponseFutureState` cells by the function `cells` together with the
allocation counter `nextCell`. -/
structure ConnectionData where
  url : String
  wsGen : Nat
  reconnector : Bool
  next_free_id : Nat
  requests : List (Nat × RequestEntry)
  cells : Nat → ResponseFutureState
  nextCell : Nat

/-- `Connection::new`: fresh state with an empty request table. -/
def ConnectionData.init (url : String) : ConnectionData :=
  { url := url, wsGen := 0, reconnector := false, next_free_id := 0,
    requests := [], cells := fun _ => ⟨none, none⟩, nextCell := 0 }

/-- Write one cell of the suspend-cell heap. -/
def setCell (h : Nat → ResponseFutureState) (i : Nat) (c : ResponseFutureState) :
    Nat → ResponseFutureState :=
  fun j => if j = i then c else h j

/-- `HashMap::insert`: replaces any entry with the same key. -/
def insertReq (k : Nat) (v : RequestEntry) (l : List (Nat × RequestEntry)) :
    List (Nat × RequestEntry) :=
  l.filter (fun q => q.1 != k) ++ [(k, v)]

/-- Key lookup in the request table. -/
def lookupReq (k : Nat) : List (Nat × RequestEntry) → Option RequestEntry
  | [] => none
  | (k', v) :: rest => if k' = k then some v else lookupReq k rest

/-- `HashMap::remove` (the removal part): drops the entry with the key. -/
def eraseReq (k : Nat) (l : List (Nat × RequestEntry)) : List (Nat × RequestEntry) :=
  l.filter (fun q => q.1 != k)

/-- `str::split_once` on a list of characters: splits at the first occurrence
of `c`, returning the parts before and after it. -/
def splitOnceAux (c : Char) : List Char → Option (List Char × List Char)
  | [] => none
  | x :: xs =>
    if x = c then some ([], xs)
    else
      match splitOnceAux c xs with
      | some (a, b) => some (x :: a, b)
      | none => none

/-- `str::split_once` on strings. -/
def splitOnce (s : String) (c : Char) : Option (String × String) :=
  match splitOnceAux c s.data with
  | some (a, b) => some (⟨a⟩, ⟨b⟩)
  | none => none

/-- Decimal digit accumulation for `u64::from_str`. -/
def digitsVal : List Char → Nat → Option Nat
  | [], acc => some acc
  | c :: cs, acc =>
    if c.isDigit then digitsVal cs (10 * acc + (c.toNat - 48)) else none

/-- `str::parse::<u64>`: an optional leading `+`, then one or more decimal
digits, and the value must fit in 64 bits. -/
def parseU64 (s : String) : Option Nat :=
  let cs :=
    match s.data with
    | '+' :: rest => rest
    | l => l
  match cs with
  | [] => none
  | _ :: _ =>
    match digitsVal cs 0 with
    | some v => if v < 2 ^ 64 then some v else none
    | none => none

/-- `Connection::update`.  `none` models a panic (the two `unwrap`s on a
received packet).  `Msg::Failed`/`Msg::Closed` schedule a backoff stream only
when none is pending; `Msg::Reconnect` opens a fresh websocket; `Msg::Opened`
drops the backoff handle and resends the framed payload of every outstanding
request on the current websocket; `Msg::Received` parses `"{id}|{content}"`,
removes the entry for `id` and resolves its shared cell with the content. -/
def Connection.update (msg : ConnMsg) (s : ConnectionData) :
    Option (ConnectionData × ConnEffects) :=
  match msg with
  | ConnMsg.Failed | ConnMsg.Closed =>
    if s.reconnector then some (s, noEffects)
    else some ({ s with reconnector := true }, { noEffects with backoffScheduled := 1 })
  | ConnMsg.Reconnect =>
    some ({ s with wsGen := s.wsGen + 1 }, { noEffects with wsCreated := true })
  | ConnMsg.Opened =>
    some ({ s with reconnector := false },
          { noEffects with sent := s.requests.map (fun p => (s.wsGen, p.2.request)) })
  | ConnMsg.Received packet =>
    match splitOnce packet '|' with
    | none => none
    | some (rids, content) =>
      match parseU64 rids with
      | none => none
      | some rid =>
        match lookupReq rid s.requests with
        | none => some ({ s with requests := eraseReq rid s.requests }, noEffects)
        | some entry =>
          let pr := RequestEntry.set_response (s.cells entry.future_state) content
          some ({ s with requests := eraseReq rid s.requests,
                         cells := setCell s.cells entry.future_state pr.1 },
                { noEffects with woken := pr.2 })

/-- `Connection::request`: allocates the next correlation id with
`wrapping_add`, frames the payload as `"{id}|{message}"`, attempts one send
on the current websocket (the result is discarded, so the send is attempted
and the entry recorded unconditionally), records the entry keyed by the id,
and returns the id of the freshly allocated shared cell — the future handed
back to the caller is bound to exactly that cell. -/
def Connection.request (s : ConnectionData) (message : String) :
    ConnectionData × Nat × ConnEffects :=
  let cid := s.nextCell
  let id := s.next_free_id
  let req := toString id ++ "|" ++ message
  ({ s with next_free_id := (s.next_free_id + 1) % 2 ^ 64,
            requests := insertReq id { request := req, future_state := cid } s.requests,
            cells := setCell s.cells cid ⟨none, none⟩,
            nextCell := cid + 1 },
   cid,
   { noEffects with sent := [(s.wsGen, req)] })

/-- Runs a list of connection messages in order, collecting the per-step
effects; `none` as soon as a step panics. -/
def runConn (s : ConnectionData) : List ConnMsg → Option (ConnectionData × List ConnEffects)
  | [] => some (s, [])
  | m :: rest =>
    match Connection.update m s with
    | none => none
    | some (s', e) =>
      match runConn s' rest with
      | none => none
      | some (s'', es) => some (s'', e :: es)

/-- The per-step sent-frame log of a run. -/
def sentLog (r : Option (ConnectionData × List ConnEffects)) :
    Option (List (List (Nat × String))) :=
  r.map (fun p => p.2.map ConnEffects.sent)

/-- Issues a sequence of requests, returning the final state and the
correlation ids assigned, in order. -/
def runRequests (s : ConnectionData) : List String → ConnectionData × List Nat
  | [] => (s, [])
  | msg :: rest =>
    let r := Connection.request s msg
    let t := runRequests r.1 rest
    (t.1, s.next_free_id :: t.2)

/-- The ids a burst of `n` requests starting from counter value `h` assigns. -/
def assignedIds (h n : Nat) : List Nat :=
  (List.range n).map (fun k => (h + k) % 2 ^ 64)

/-- One measurement of `measurer.rs`, flattening the 1:1 pair
`MeasurementData` / `FutureState` created by a single `Measurer::measure`
call into one record:

* `text` — `MeasurementData.text`;
* `divAttached` — whether the `ElRef` slot holds an element, i.e.
  `div.get().is_some()` (set by the browser when the rendered node is
  attached);
* `rendered` — the `rendered` cell (set by `Measurer::view`);
* `waker` — `FutureState.waker`, an opaque `Nat` identifier;
* `handleAlive` — whether the caller holds a `Measurement` clone of its own;
* `futureAlive` — whether the caller still holds the `MeasureFuture` (which
  strongly owns the `FutureState`, which strongly owns the `Measurement`).

`Weak::upgrade` on the `WeakMeasurement` succeeds iff
`handleAlive || futureAlive`; upgrade on the weak `FutureState` reference
succeeds iff `futureAlive`. -/
structure MeasItem where
  text : String
  divAttached : Bool
  rendered : Bool
  waker : Option Nat
  handleAlive : Bool
  futureAlive : Bool
deriving DecidableEq

/-- `MeasurerData`: the heap of all items ever created (index = item id) and
the two parallel weak-reference collections `measurements` and `futures`,
holding item ids. -/
structure MeasurerData where
  heap : List MeasItem
  measurements : List Nat
  futures : List Nat
deriving DecidableEq

/-- `Measurer::new`. -/
def measInit : MeasurerData := ⟨[], [], []⟩

/-- Whether the `WeakMeasurement` for item `i` still upgrades. -/
def itemAlive (heap : List MeasItem) (i : Nat) : Bool :=
  match heap[i]? with
  | some it => it.handleAlive || it.futureAlive
  | none => false

/-- `Measurer::measure`: creates a fresh item (no element attached, not
rendered, no waker, strongly owned only through the returned future) and
pushes weak references to it onto both collections.  Returns the item id,
which identifies both the `Measurement` handed to the future's state and the
`FutureState` the returned `MeasureFuture` polls. -/
def Measurer.measure (m : MeasurerData) (text : String) : MeasurerData × Nat :=
  let i := m.heap.length
  ({ heap := m.heap ++ [{ text := text, divAttached := false, rendered := false,
                          waker := none, handleAlive := false, futureAlive := true }],
     measurements := m.measurements ++ [i],
     futures := m.futures ++ [i] }, i)

/-- Sets the rendered marker of item `i`. -/
def markRendered (heap : List MeasItem) (i : Nat) : List MeasItem :=
  match heap[i]? with
  | some it => heap.set i { it with rendered := true }
  | none => heap

/-- `Measurer::view`: drains the measurement collection, keeps exactly the
entries whose weak reference still upgrades, marks each survivor as rendered,
and renders the survivors.  Returns the new state and the ids of the items
rendered, in order. -/
def Measurer.view (m : MeasurerData) : MeasurerData × List Nat :=
  let kept := m.measurements.filter (fun i => itemAlive m.heap i)
  ({ m with measurements := kept, heap := kept.foldl markRendered m.heap }, kept)

/-- The completion sweep run on `Msg::Measured`: walks the future-state
collection; dead weak references are dropped; for a live entry the
`assert_eq!(div.get().is_some(), *rendered.borrow())` consistency check runs
(`none` models the panic); a realized entry has its waker taken (collected as
the pair of item id and waker value) and is removed, an unrealized one is
kept.  Returns the updated heap, the wakers collected and the surviving
entries. -/
def sweepFutures (heap : List MeasItem) :
    List Nat → Option (List MeasItem × List (Nat × Nat) × List Nat)
  | [] => some (heap, [], [])
  | i :: rest =>
    match heap[i]? with
    | none => sweepFutures heap rest
    | some it =>
      if it.futureAlive then
        if it.divAttached = it.rendered then
          if it.divAttached then
            match sweepFutures (heap.set i { it with waker := none }) rest with
            | none => none
            | some (h, wk, flt) =>
              some (h,
                (match it.waker with
                 | some w => (i, w) :: wk
                 | none => wk), flt)
          else
            match sweepFutures heap rest with
            | none => none
            | some (h, wk, flt) => some (h, wk, i :: flt)
        else none
      else sweepFutures heap rest

/-- Messages handled by `Measurer::update` (`measurer.rs`, `enum Msg`). -/
inductive MeasMsg where
  | WaitForRender
  | Measured
  | MeasuredElementMessage
deriving DecidableEq

/-- Observable side effects of one `Measurer::update` step: the wakers
batched into a `Wake` message (item id paired with waker value), whether a
render was requested, whether the render was skipped, and whether an
after-next-render hook was installed. -/
structure MeasEffects where
  woken : List (Nat × Nat)
  renderScheduled : Bool
  skipped : Bool
  afterRenderHook : Bool
deriving DecidableEq

/-- No observable measurer effect. -/
def noMeasEffects : MeasEffects := ⟨[], false, false, false⟩

/-- `Measurer::update`.  `none` models a panic: the consistency assertion
inside the `Msg::Measured` sweep, or the unconditional panic on
`Msg::MeasuredElementMessage`.  After the sweep, wakers are dispatched as one
batched follow-up message and another render is requested iff some entry is
still waiting. -/
def Measurer.update (msg : MeasMsg) (m : MeasurerData) :
    Option (MeasurerData × MeasEffects) :=
  match msg with
  | MeasMsg.WaitForRender =>
    some (m, { noMeasEffects with renderScheduled := true, afterRenderHook := true })
  | MeasMsg.Measured =>
    match sweepFutures m.heap m.futures with
    | none => none
    | some (h, wk, flt) =>
      some ({ m with heap := h, futures := flt },
            { woken := wk, renderScheduled := !flt.isEmpty,
              skipped := flt.isEmpty, afterRenderHook := false })
  | MeasMsg.MeasuredElementMessage => none

/-- `MeasureFuture::poll` on the future state of item `i`: if the element
slot is attached the poll is `Ready` with the measurement handle (identified
by the item id, `state.measurement.clone()`) and the state is untouched;
otherwise the caller's waker is recorded and the poll is pending.  `none`
covers an id outside the heap, which never arises. -/
def MeasureFuture.poll (m : MeasurerData) (i w : Nat) :
    Option (PollRes Nat × MeasurerData) :=
  match m.heap[i]? with
  | none => none
  | some it =>
    if it.divAttached then some (PollRes.Ready i, m)
    else some (PollRes.Pending, { m with heap := m.heap.set i { it with waker := some w } })

/-- Environment event: the caller drops its `MeasureFuture` and any
`Measurement` clones, so both weak references to the item stop upgrading. -/
def dropHandles (m : MeasurerData) (i : Nat) : MeasurerData :=
  match m.heap[i]? with
  | some it =>
    { m with heap := m.heap.set i { it with handleAlive := false, futureAlive := false } }
  | none => m

/-- Environment event: the browser attaches the rendered node to the item's
`ElRef` slot, making `div.get()` return the element. -/
def attachEl (m : MeasurerData) (i : Nat) : MeasurerData :=
  match m.heap[i]? with
  | some it => { m with heap := m.heap.set i { it with divAttached := true } }
  | none => m

/-- The consistency defect the `Msg::Measured` sweep asserts against: a live
future-state entry whose element slot and rendered marker disagree. -/
def markerMismatchB (heap : List MeasItem) (i : Nat) : Bool :=
  match heap[i]? with
  | some it => it.futureAlive && (it.divAttached != it.rendered)
  | none => false

/-- Concrete state: one measurement whose caller dropped all its handles. -/
def mDropped : MeasurerData := dropHandles (Measurer.measure measInit "a").1 0

/-- Concrete state: one live measurement whose element got attached without
its rendered marker being set — the defect the sweep is meant to catch. -/
def mAttached : MeasurerData := attachEl (Measurer.measure measInit "a").1 0

/-- Concrete state: one live measurement that was rendered (marker set by
`Measurer::view`) and whose element got attached. -/
def mRealized : MeasurerData :=
  attachEl (Measurer.view (Measurer.measure measInit "a").1).1 0

/-! ### Helper lemmas -/

lemma lookupReq_insertReq (k : Nat) (v : RequestEntry) :
    ∀ l : List (Nat × RequestEntry), lookupReq k (insertReq k v l) = some v
  | [] => by simp [insertReq, lookupReq]
  | (k', v') :: rest => by
    by_cases h : k' = k
    · simpa [insertReq, h] using lookupReq_insertReq k v rest
    · have he : insertReq k v ((k', v') :: rest) = (k', v') :: insertReq k v rest := by
        simp [insertReq, h]
      rw [he, lookupReq]
      simp [h, lookupReq_insertReq k v rest]

lemma eraseReq_of_lookup_none (k : Nat) :
    ∀ l : List (Nat × RequestEntry), lookupReq k l = none → eraseReq k l = l
  | [] => by intro _; rfl
  | (k', v') :: rest => by
    intro h
    rw [lookupReq] at h
    by_cases hk : k' = k
    · simp [hk] at h
    · simp only [if_neg hk] at h
      have ih := eraseReq_of_lookup_none k rest h
      simp [eraseReq, List.filter_cons, hk] at ih ⊢
      exact ih

lemma splitOnceAux_eq_some (c : Char) :
    ∀ l a b : List Char, splitOnceAux c l = some (a, b) → l = a ++ c :: b ∧ c ∉ a
  | [] => by intro a b h; simp [splitOnceAux] at h
  | x :: xs => by
    intro a b h
    rw [splitOnceAux] at h
    by_cases hx : x = c
    · rw [if_pos hx] at h
      simp only [Option.some.injEq, Prod.mk.injEq] at h
      obtain ⟨rfl, rfl⟩ := h
      simp [hx]
    · rw [if_neg hx] at h
      cases hrec : splitOnceAux c xs with
      | none => rw [hrec] at h; exact absurd h (by simp)
      | some p =>
        obtain ⟨a', b'⟩ := p
        rw [hrec] at h
        simp only [Option.some.injEq, Prod.mk.injEq] at h
        obtain ⟨rfl, rfl⟩ := h
        obtain ⟨he, hm⟩ := splitOnceAux_eq_some c xs a' b' hrec
        refine ⟨by simp [he], ?_⟩
        intro hc
        rcases List.mem_cons.mp hc with h1 | h1
        · exact hx h1.symm
        · exact hm h1

lemma splitOnce_eq_some (s : String) (c : Char) (a b : String)
    (h : splitOnce s c = some (a, b)) :
    s.data = a.data ++ c :: b.data ∧ c ∉ a.data := by
  rw [splitOnce] at h
  cases hrec : splitOnceAux c s.data with
  | none => rw [hrec] at h; exact absurd h (by simp)
  | some p =>
    obtain ⟨x, y⟩ := p
    rw [hrec] at h
    simp only [Option.some.injEq, Prod.mk.injEq] at h
    obtain ⟨rfl, rfl⟩ := h
    exact splitOnceAux_eq_some c s.data x y hrec

lemma markerMismatchB_set_waker (heap : List MeasItem) (i j : Nat) (it : MeasItem)
    (hget : heap[i]? = some it) :
    markerMismatchB (heap.set i { it with waker := none }) j = markerMismatchB heap j := by
  by_cases hij : i = j
  · subst hij
    have hlt : i < heap.length := (List.getElem?_eq_some.mp hget).1
    rw [markerMismatchB, markerMismatchB, List.getElem?_set_self (by simpa using hlt), hget]
  · rw [markerMismatchB, markerMismatchB, List.getElem?_set_ne hij]


lemma sweepFutures_eq_none_iff :
    ∀ (l : List Nat) (heap : List MeasItem),
      sweepFutures heap l = none ↔ l.any (markerMismatchB heap) = true
  | [], heap => by simp [sweepFutures]
  | i :: rest, heap => by
    rw [List.any_cons]
    cases hget : heap[i]? with
    | none =>
      have hm : markerMismatchB heap i = false := by rw [markerMismatchB, hget]
      rw [sweepFutures, hget, hm]
      simpa using sweepFutures_eq_none_iff rest heap
    | some it =>
      obtain ⟨t, d, r, w, ha, fa⟩ := it
      have hmm : markerMismatchB heap i = (fa && (d != r)) := by rw [markerMismatchB, hget]
      cases fa with
      | false =>
        have hrec := sweepFutures_eq_none_iff rest heap
        simp only [sweepFutures, hget, hmm]
        simpa using hrec
      | true =>
        cases d <;> cases r
        · have hrec := sweepFutures_eq_none_iff rest heap
          simp only [sweepFutures, hget, hmm]
          cases hs : sweepFutures heap rest with
          | none =>
            simp [hs]
            exact List.any_eq_true.mp (hrec.mp hs)
          | some t' =>
            obtain ⟨h', wk', flt'⟩ := t'
            rw [hs] at hrec
            simp [hs]
            simpa using hrec
        · simp only [sweepFutures, hget, hmm]
          simp
        · simp only [sweepFutures, hget, hmm]
          simp
        · have hcong : markerMismatchB (heap.set i ⟨t, true, true, none, ha, true⟩) =
              markerMismatchB heap :=
            funext (fun j => markerMismatchB_set_waker heap i j ⟨t, true, true, w, ha, true⟩ hget)
          have hrec := sweepFutures_eq_none_iff rest (heap.set i ⟨t, true, true, none, ha, true⟩)
          rw [hcong] at hrec
          simp only [sweepFutures, hget, hmm]
          cases hs : sweepFutures (heap.set i ⟨t, true, true, none, ha, true⟩) rest with
          | none =>
            simp [hs]
            exact List.any_eq_true.mp (hrec.mp hs)
          | some t' =>
            obtain ⟨h', wk', flt'⟩ := t'
            rw [hs] at hrec
            simp [hs]
            simpa using hrec

lemma sweepFutures_dead_skipped (i : Nat) :
    ∀ (l : List Nat) (heap hp : List MeasItem) (wk : List (Nat × Nat)) (flt : List Nat),
      (∀ it, heap[i]? = some it → it.futureAlive = false) →
      sweepFutures heap l = some (hp, wk, flt) →
      i ∉ flt ∧ ∀ w, (i, w) ∉ wk
  | [], heap, hp, wk, flt => by
    intro _ hs
    rw [sweepFutures] at hs
    simp only [Option.some.injEq, Prod.mk.injEq] at hs
    obtain ⟨-, rfl, rfl⟩ := hs
    simp
  | j :: rest, heap, hp, wk, flt => by
    intro hdead hs
    cases hget : heap[j]? with
    | none =>
      simp only [sweepFutures, hget] at hs
      exact sweepFutures_dead_skipped i rest heap hp wk flt hdead hs
    | some it =>
      obtain ⟨t, d, r, w, ha, fa⟩ := it
      cases fa with
      | false =>
        simp only [sweepFutures, hget] at hs
        simp at hs
        exact sweepFutures_dead_skipped i rest heap hp wk flt hdead hs
      | true =>
        have hij : j ≠ i := by
          intro e
          subst e
          exact absurd (hdead _ hget) (by simp)
        cases d <;> cases r
        · simp only [sweepFutures, hget] at hs
          simp at hs
          cases hrec : sweepFutures heap rest with
          | none => rw [hrec] at hs; exact absurd hs (by simp)
          | some t' =>
            obtain ⟨h', wk', flt'⟩ := t'
            rw [hrec] at hs
            simp only [Option.some.injEq, Prod.mk.injEq] at hs
            obtain ⟨-, rfl, rfl⟩ := hs
            obtain ⟨hflt, hwk⟩ := sweepFutures_dead_skipped i rest heap h' wk' flt' hdead hrec
            constructor
            · intro hmem
              rcases List.mem_cons.mp hmem with h1 | h1
              · exact hij h1.symm
              · exact hflt h1
            · intro w' hmem
              exact hwk w' hmem
        · simp only [sweepFutures, hget] at hs
          simp at hs
        · simp only [sweepFutures, hget] at hs
          simp at hs
        · have hdead' : ∀ it,
              (heap.set j ⟨t, true, true, none, ha, true⟩)[i]? = some it →
                it.futureAlive = false := by
            intro it' hit'
            rw [List.getElem?_set_ne hij] at hit'
            exact hdead it' hit'
          simp only [sweepFutures, hget] at hs
          simp at hs
          cases hrec : sweepFutures (heap.set j ⟨t, true, true, none, ha, true⟩) rest with
          | none => rw [hrec] at hs; exact absurd hs (by simp)
          | some t' =>
            obtain ⟨h', wk', flt'⟩ := t'
            rw [hrec] at hs
            simp only [Option.some.injEq, Prod.mk.injEq] at hs
            obtain ⟨-, hwkeq, rfl⟩ := hs
            obtain ⟨hflt, hwk⟩ :=
              sweepFutures_dead_skipped i rest _ h' wk' flt' hdead' hrec
            refine ⟨hflt, ?_⟩
            intro w' hmem
            rw [← hwkeq] at hmem
            cases w with
            | none => exact hwk w' hmem
            | some w0 =>
              rcases List.mem_cons.mp hmem with h1 | h1
              · exact hij (congrArg Prod.fst h1).symm
              · exact hwk w' h1

lemma assignedIds_succ (h n : Nat) (hlt : h < 2 ^ 64) :
    assignedIds h (n + 1) = h :: assignedIds ((h + 1) % 2 ^ 64) n := by
  rw [assignedIds, List.range_succ_eq_map, List.map_cons, List.map_map]
  congr 1
  · simpa using Nat.mod_eq_of_lt hlt
  · rw [assignedIds]
    refine List.map_congr_left ?_
    intro k _
    show (h + Nat.succ k) % 2 ^ 64 = ((h + 1) % 2 ^ 64 + k) % 2 ^ 64
    rw [Nat.mod_add_mod]
    congr 1
    omega

lemma assignedIds_nodup (h n : Nat) (hn : n ≤ 2 ^ 64) :
    (assignedIds h n).Nodup := by
  rw [assignedIds]
  refine List.Nodup.map_on ?_ (List.nodup_range n)
  intro j hj k hk he
  rw [List.mem_range] at hj hk
  have h1 : j % 2 ^ 64 = k % 2 ^ 64 := Nat.ModEq.add_left_cancel' h he
  rwa [Nat.mod_eq_of_lt (lt_of_lt_of_le hj hn), Nat.mod_eq_of_lt (lt_of_lt_of_le hk hn)] at h1

lemma assignedIds_wrap_not_nodup : ¬ (assignedIds 0 (2 ^ 64 + 1)).Nodup := by
  intro hnd
  rw [assignedIds] at hnd
  have hinj := List.inj_on_of_nodup_map hnd
  have h0 : (0 : Nat) ∈ List.range (2 ^ 64 + 1) := by
    rw [List.mem_range]
    omega
  have h1 : (2 ^ 64 : Nat) ∈ List.range (2 ^ 64 + 1) := by
    rw [List.mem_range]
    omega
  have he : (0 + (0 : Nat)) % 2 ^ 64 = (0 + 2 ^ 64) % 2 ^ 64 := by simp
  have h2 := hinj h0 h1 he
  have hpos : (0 : Nat) < 2 ^ 64 := Nat.pos_pow_of_pos 64 (by omega)
  omega

lemma runRequests_ids :
    ∀ (msgs : List String) (s : ConnectionData), s.next_free_id < 2 ^ 64 →
      (runRequests s msgs).2 = assignedIds s.next_free_id msgs.length
  | [], s => by
    intro _
    simp [runRequests, assignedIds]
  | msg :: rest, s => by
    intro hlt
    have hnf : ((Connection.request s msg).1).next_free_id = (s.next_free_id + 1) % 2 ^ 64 := by
      rw [Connection.request]
    have hlt' : ((Connection.request s msg).1).next_free_id < 2 ^ 64 := by
      rw [hnf]
      exact Nat.mod_lt _ (Nat.pos_pow_of_pos 64 (by omega))
    have ih := runRequests_ids rest (Connection.request s msg).1 hlt'
    rw [hnf] at ih
    simp only [runRequests, List.length_cons]
    rw [assignedIds_succ s.next_free_id rest.length hlt]
    rw [ih]

lemma insertReq_of_fresh (k : Nat) (v : RequestEntry) (l : List (Nat × RequestEntry))
    (hfresh : ∀ q ∈ l, q.1 ≠ k) : insertReq k v l = l ++ [(k, v)] := by
  rw [insertReq, List.filter_eq_self.mpr]
  intro a ha
  simpa [bne_iff_ne] using hfresh a ha

lemma runRequests_keys :
    ∀ (msgs : List String) (s : ConnectionData), s.next_free_id < 2 ^ 64 →
      (assignedIds s.next_free_id msgs.length).Nodup →
      (∀ x ∈ assignedIds s.next_free_id msgs.length, ∀ q ∈ s.requests, q.1 ≠ x) →
      (runRequests s msgs).1.requests.map Prod.fst =
        s.requests.map Prod.fst ++ assignedIds s.next_free_id msgs.length
  | [], s => by
    intro _ _ _
    simp [runRequests, assignedIds]
  | msg :: rest, s => by
    intro hlt hnd hfresh
    rw [List.length_cons, assignedIds_succ s.next_free_id rest.length hlt] at hnd hfresh ⊢
    have hfresh_h : ∀ q ∈ s.requests, q.1 ≠ s.next_free_id :=
      hfresh _ (List.mem_cons_self _ _)
    have hreq1 : (Connection.request s msg).1.requests =
        s.requests ++ [(s.next_free_id,
          { request := toString s.next_free_id ++ "|" ++ msg,
            future_state := s.nextCell })] := by
      simp only [Connection.request]
      exact insertReq_of_fresh _ _ _ hfresh_h
    have hnf : ((Connection.request s msg).1).next_free_id = (s.next_free_id + 1) % 2 ^ 64 := by
      rw [Connection.request]
    have hlt' : ((Connection.request s msg).1).next_free_id < 2 ^ 64 := by
      rw [hnf]
      exact Nat.mod_lt _ (Nat.pos_pow_of_pos 64 (by omega))
    obtain ⟨hnotmem, hnd'⟩ := List.nodup_cons.mp hnd
    have hfresh' : ∀ x ∈ assignedIds ((s.next_free_id + 1) % 2 ^ 64) rest.length,
        ∀ q ∈ (Connection.request s msg).1.requests, q.1 ≠ x := by
      intro x hx q hq
      rw [hreq1] at hq
      rcases List.mem_append.mp hq with h1 | h1
      · exact hfresh x (List.mem_cons_of_mem _ hx) q h1
      · have : q = (s.next_free_id,
            { request := toString s.next_free_id ++ "|" ++ msg,
              future_state := s.nextCell }) := by simpa using h1
        rw [this]
        intro hcontra
        simp only [] at hcontra
        exact hnotmem (hcontra ▸ hx)
    have ih := runRequests_keys rest (Connection.request s msg).1 hlt'
      (by rw [hnf]; exact hnd') (by rw [hnf]; exact hfresh')
    rw [hnf] at ih
    have hrun : (runRequests s (msg :: rest)).1 = (runRequests (Connection.request s msg).1 rest).1 := by
      simp only [runRequests]
    rw [hrun, ih, hreq1]
    simp

lemma runConn_all_closed :
    ∀ (l : List ConnMsg) (s : ConnectionData), s.reconnector = true →
      (∀ m ∈ l, m = ConnMsg.Failed ∨ m = ConnMsg.Closed) →
      runConn s l = some (s, List.replicate l.length noEffects)
  | [], s => by
    intro _ _
    rfl
  | m :: rest, s => by
    intro hrec hall
    have hstep : Connection.update m s = some (s, noEffects) := by
      rcases hall m (List.mem_cons_self _ _) with rfl | rfl <;>
        simp [Connection.update, hrec]
    have ih := runConn_all_closed rest s hrec (fun x hx => hall x (List.mem_cons_of_mem _ hx))
    rw [runConn, hstep]
    show (match runConn s rest with
          | none => none
          | some (s'', es) => some (s'', noEffects :: es)) =
        some (s, List.replicate (m :: rest).length noEffects)
    rw [ih]
    simp [List.replicate_succ]

/-! ### Claim theorems -/

/-- Claim C2: for every `SuspendState` cell and value `v`, resolving the cell
with `v` and then polling it yields `Ready v`, never `Pending`; resolution
stores the value in the cell (the state every woken waker observes is the one
with the value already stored — the woken list is exactly the previously
registered waker), so a woken consumer always observes the value. -/
theorem suspend_resolve_then_poll_ready (st : ResponseFutureState) (v : String) (w : Nat) :
    ((RequestEntry.set_response st v).1).response_message = some v ∧
    (RequestEntry.set_response st v).2 = st.waker.toList ∧
    ResponseFuture.poll (RequestEntry.set_response st v).1 w =
      (PollRes.Ready v,
       { (RequestEntry.set_response st v).1 with response_message := none }) := by
  cases h : st.waker <;>
    simp [RequestEntry.set_response, ResponseFuture.poll, h]

/-- Claim C3: `ResponseFuture::poll` returns `Ready` and consumes the stored
result when one is present (a subsequent poll finds the cell empty and is
`Pending` again), and otherwise registers the caller's wake handle,
overwriting any previously stored handle, and returns `Pending`. -/
theorem response_poll_consumes_or_registers (st : ResponseFutureState) (w w' : Nat) :
    (∀ r, st.response_message = some r →
      ResponseFuture.poll st w = (PollRes.Ready r, { st with response_message := none }) ∧
      (ResponseFuture.poll { st with response_message := none } w').1 = PollRes.Pending) ∧
    (st.response_message = none →
      ResponseFuture.poll st w = (PollRes.Pending, { st with waker := some w })) := by
  constructor
  · intro r hr
    constructor <;> simp [ResponseFuture.poll, hr]
  · intro h
    simp [ResponseFuture.poll, h]

/-- Witness for C3 at a concrete cell: a stored `"x"` is consumed by the
first poll, a second poll is pending, and polling an empty cell overwrites
the waker. -/
theorem response_poll_witness :
    ResponseFuture.poll ⟨some "x", some 5⟩ 7 = (PollRes.Ready "x", ⟨none, some 5⟩) ∧
    (ResponseFuture.poll ⟨none, some 5⟩ 9).1 = PollRes.Pending ∧
    ResponseFuture.poll ⟨none, some 5⟩ 7 = (PollRes.Pending, ⟨none, some 7⟩) :=
  ⟨((response_poll_consumes_or_registers ⟨some "x", some 5⟩ 7 9).1 "x" rfl).1,
   ((response_poll_consumes_or_registers ⟨some "x", some 5⟩ 7 9).1 "x" rfl).2,
   (response_poll_consumes_or_registers ⟨none, some 5⟩ 7 9).2 rfl⟩

/-- Claim C7: `Connection::request` frames the payload as `"{id}|{payload}"`
with the freshly allocated id, attempts exactly one immediate send of that
frame on the current transport, records the pending entry keyed by that id
regardless of send success (the source discards the send result, so there is
no branch), advances the counter with wrapping, and returns a future bound
to that entry's shared cell (the returned cell id is the one stored in the
entry), freshly initialized empty. -/
theorem request_frames_records_returns (s : ConnectionData) (msg : String) :
    (Connection.request s msg).2.1 = s.nextCell ∧
    lookupReq s.next_free_id (Connection.request s msg).1.requests =
      some { request := toString s.next_free_id ++ "|" ++ msg, future_state := s.nextCell } ∧
    (Connection.request s msg).1.cells s.nextCell = { response_message := none, waker := none } ∧
    (Connection.request s msg).2.2.sent =
      [(s.wsGen, toString s.next_free_id ++ "|" ++ msg)] ∧
    (Connection.request s msg).1.next_free_id = (s.next_free_id + 1) % 2 ^ 64 := by
  refine ⟨rfl, ?_, ?_, rfl, rfl⟩
  · simp only [Connection.request]
    exact lookupReq_insertReq _ _ _
  · simp [Connection.request, setCell]

/-- Claim C4: on `Msg::Opened` the multiplexer clears any scheduled backoff
task and resends, on the current (new) transport, the original framed payload
of every still-outstanding request, verbatim and with the table untouched;
concretely, a request issued while the transport was down is resent as the
identical frame `"0|B"` on the post-reconnect websocket after a
close / reconnect / open cycle. -/
theorem opened_clears_backoff_and_replays (s : ConnectionData) :
    Connection.update ConnMsg.Opened s =
      some ({ s with reconnector := false },
            { noEffects with sent := s.requests.map (fun p => (s.wsGen, p.2.request)) }) ∧
    (∀ p ∈ s.requests, ∀ s' eff, Connection.update ConnMsg.Opened s = some (s', eff) →
      (s.wsGen, p.2.request) ∈ eff.sent) ∧
    sentLog (runConn (Connection.request (ConnectionData.init "u") "B").1
        [ConnMsg.Closed, ConnMsg.Reconnect, ConnMsg.Opened]) =
      some [[], [], [(1, "0|B")]] := by
  refine ⟨rfl, ?_, by decide⟩
  intro p hp s' eff heq
  simp only [Connection.update, Option.some.injEq, Prod.mk.injEq] at heq
  obtain ⟨-, rfl⟩ := heq
  exact List.mem_map_of_mem _ hp

/-- Witness for C4: the outstanding request `"0|B"` of a concrete connection
state is among the frames replayed by `Msg::Opened`. -/
theorem opened_replays_witness :
    ((Connection.request (ConnectionData.init "u") "B").1.wsGen, "0|B") ∈
      ({ noEffects with sent := [(0, "0|B")] } : ConnEffects).sent := by
  have h := (opened_clears_backoff_and_replays
      (Connection.request (ConnectionData.init "u") "B").1).2.1
    (0, { request := "0|B", future_state := 0 }) (by decide)
    { (Connection.request (ConnectionData.init "u") "B").1 with reconnector := false }
    { noEffects with sent := [(0, "0|B")] } rfl
  exact h

/-- Claim C5: a transport-close or transport-error event schedules a backoff
task only when none is pending (the state is otherwise untouched and no task
is scheduled), so any nonempty burst of close/error events schedules exactly
one backoff task when none was pending and none at all when one already
was. -/
theorem backoff_scheduling_idempotent (s : ConnectionData) :
    (Connection.update ConnMsg.Closed s =
      some (if s.reconnector then (s, noEffects)
            else ({ s with reconnector := true },
                  { noEffects with backoffScheduled := 1 }))) ∧
    (Connection.update ConnMsg.Failed s =
      some (if s.reconnector then (s, noEffects)
            else ({ s with reconnector := true },
                  { noEffects with backoffScheduled := 1 }))) ∧
    ∀ l : List ConnMsg, l ≠ [] →
      (∀ m ∈ l, m = ConnMsg.Failed ∨ m = ConnMsg.Closed) →
      ∃ s' es, runConn s l = some (s', es) ∧
        (es.map ConnEffects.backoffScheduled).sum = (if s.reconnector then 0 else 1) ∧
        s'.reconnector = true := by
  refine ⟨?_, ?_, ?_⟩
  · cases hr : s.reconnector <;> simp [Connection.update, hr]
  · cases hr : s.reconnector <;> simp [Connection.update, hr]
  · intro l hne hall
    obtain ⟨m, rest, rfl⟩ : ∃ m rest, l = m :: rest := by
      cases l with
      | nil => exact absurd rfl hne
      | cons m rest => exact ⟨m, rest, rfl⟩
    cases hr : s.reconnector with
    | true =>
      refine ⟨s, List.replicate (m :: rest).length noEffects,
        runConn_all_closed (m :: rest) s hr hall, ?_, hr⟩
      simp [noEffects]
    | false =>
      have hstep : Connection.update m s =
          some ({ s with reconnector := true },
                { noEffects with backoffScheduled := 1 }) := by
        rcases hall m (List.mem_cons_self _ _) with rfl | rfl <;>
          simp [Connection.update, hr]
      have hrest := runConn_all_closed rest { s with reconnector := true } rfl
        (fun x hx => hall x (List.mem_cons_of_mem _ hx))
      refine ⟨{ s with reconnector := true },
        { noEffects with backoffScheduled := 1 } ::
          List.replicate rest.length noEffects, ?_, ?_, rfl⟩
      · rw [runConn, hstep]
        show (match runConn { s with reconnector := true } rest with
              | none => none
              | some (s'', es) =>
                some (s'', { noEffects with backoffScheduled := 1 } :: es)) =
            some ({ s with reconnector := true },
              { noEffects with backoffScheduled := 1 } ::
                List.replicate rest.length noEffects)
        rw [hrest]
      · simp [noEffects]

/-- Witness for C5: a concrete burst of two close/error events from a fresh
connection schedules exactly one backoff task in total and leaves the backoff
pending. -/
theorem backoff_idempotent_witness :
    (runConn (ConnectionData.init "u") [ConnMsg.Failed, ConnMsg.Closed]).map
        (fun r => ((r.2.map ConnEffects.backoffScheduled).sum, r.1.reconnector)) =
      some (1, true) := by
  obtain ⟨s', es, h1, h2, h3⟩ :=
    (backoff_scheduling_idempotent (ConnectionData.init "u")).2.2
      [ConnMsg.Failed, ConnMsg.Closed] (by decide) (by decide)
  rw [h1]
  simp only [Option.map_some']
  rw [h2, h3]
  simp [ConnectionData.init]

/-- Counterexample for C6 as stated: a sequence of `2^64 + 1` requests issued
before any reply does not get distinct correlation ids — the wrapping counter
reassigns id `0` to the last request, so the assigned-id list has a
duplicate. -/
theorem correlation_uniqueness_cex :
    ¬ ((runRequests (ConnectionData.init "u") (List.replicate (2 ^ 64 + 1) "m")).2).Nodup := by
  have hlt : (ConnectionData.init "u").next_free_id < 2 ^ 64 :=
    Nat.pos_pow_of_pos 64 (by omega)
  have hids := runRequests_ids (List.replicate (2 ^ 64 + 1) "m") (ConnectionData.init "u") hlt
  rw [hids, List.length_replicate]
  exact assignedIds_wrap_not_nodup

/-- Claim C6 (amended): for every sequence of `N ≤ 2^64` request calls issued
on a fresh connection before any reply is consumed, `N` distinct correlation
ids are assigned (the counter increases monotonically with wrapping) and the
request table contains `N` distinct entries, keyed exactly by those ids.  The
bound is forced by the wrapping counter: after `2^64` requests ids repeat and
table entries are replaced (see the counterexample). -/
theorem correlation_uniqueness_bounded (url : String) (msgs : List String)
    (hn : msgs.length ≤ 2 ^ 64) :
    ((runRequests (ConnectionData.init url) msgs).2).Nodup ∧
    (runRequests (ConnectionData.init url) msgs).2.length = msgs.length ∧
    (runRequests (ConnectionData.init url) msgs).1.requests.map Prod.fst =
      (runRequests (ConnectionData.init url) msgs).2 ∧
    (runRequests (ConnectionData.init url) msgs).1.requests.length = msgs.length := by
  have hlt : (ConnectionData.init url).next_free_id < 2 ^ 64 :=
    Nat.pos_pow_of_pos 64 (by omega)
  have hids := runRequests_ids msgs (ConnectionData.init url) hlt
  have hnd : (assignedIds (ConnectionData.init url).next_free_id msgs.length).Nodup :=
    assignedIds_nodup _ _ hn
  have hkeys := runRequests_keys msgs (ConnectionData.init url) hlt hnd
    (by intro x _ q hq; simp [ConnectionData.init] at hq)
  refine ⟨hids ▸ hnd, ?_, ?_, ?_⟩
  · rw [hids, assignedIds, List.length_map, List.length_range]
  · rw [hkeys, hids]
    simp [ConnectionData.init]
  · have hlen := congrArg List.length hkeys
    rw [List.length_map, List.length_append] at hlen
    rw [hlen]
    simp [ConnectionData.init, assignedIds]

/-- Witness for the amended C6: three requests on a fresh connection get the
distinct ids `0, 1, 2` and three table entries keyed by them. -/
theorem correlation_uniqueness_witness :
    ((runRequests (ConnectionData.init "u") ["a", "b", "c"]).2).Nodup ∧
    (runRequests (ConnectionData.init "u") ["a", "b", "c"]).2.length =
      (["a", "b", "c"] : List String).length ∧
    (runRequests (ConnectionData.init "u") ["a", "b", "c"]).1.requests.map Prod.fst =
      (runRequests (ConnectionData.init "u") ["a", "b", "c"]).2 ∧
    (runRequests (ConnectionData.init "u") ["a", "b", "c"]).1.requests.length =
      (["a", "b", "c"] : List String).length :=
  correlation_uniqueness_bounded "u" ["a", "b", "c"] (by decide)

/-- Claim C8: on an inbound packet the multiplexer splits at the first `'|'`
(the prefix contains no `'|'`, so the content may), panics when the separator
is absent or the prefix is not a valid `u64`, and otherwise removes the
pending entry for that id — a no-op leaving the state untouched when no entry
exists — and resolves the removed entry's shared cell with the content,
waking its registered waker. -/
theorem received_parse_remove_resolve (s : ConnectionData) (p : String) :
    (splitOnce p '|' = none → Connection.update (ConnMsg.Received p) s = none) ∧
    ∀ a b, splitOnce p '|' = some (a, b) →
      p.data = a.data ++ '|' :: b.data ∧ '|' ∉ a.data ∧
      (parseU64 a = none → Connection.update (ConnMsg.Received p) s = none) ∧
      ∀ rid, parseU64 a = some rid →
        (lookupReq rid s.requests = none →
          Connection.update (ConnMsg.Received p) s = some (s, noEffects)) ∧
        ∀ e, lookupReq rid s.requests = some e →
          Connection.update (ConnMsg.Received p) s =
            some ({ s with requests := eraseReq rid s.requests,
                           cells := setCell s.cells e.future_state
                             (RequestEntry.set_response (s.cells e.future_state) b).1 },
                  { noEffects with
                      woken := (RequestEntry.set_response (s.cells e.future_state) b).2 }) := by
  constructor
  · intro h
    simp [Connection.update, h]
  · intro a b hsplit
    obtain ⟨hdata, hnot⟩ := splitOnce_eq_some p '|' a b hsplit
    refine ⟨hdata, hnot, ?_, ?_⟩
    · intro hparse
      simp [Connection.update, hsplit, hparse]
    · intro rid hparse
      constructor
      · intro hlook
        have herase := eraseReq_of_lookup_none rid s.requests hlook
        simp [Connection.update, hsplit, hparse, hlook, herase]
      · intro e hlook
        simp [Connection.update, hsplit, hparse, hlook]

/-- Witness for C8: the concrete reply `"0|A-reply|x"` (content itself
containing `'|'`) splits at the first separator, resolves the single
outstanding entry of a concrete connection and removes it. -/
theorem received_witness :
    ("0|A-reply|x" : String).data =
      ("0" : String).data ++ '|' :: ("A-reply|x" : String).data ∧
    '|' ∉ ("0" : String).data ∧
    Connection.update (ConnMsg.Received "0|A-reply|x")
        (Connection.request (ConnectionData.init "u") "A").1 =
      some ({ (Connection.request (ConnectionData.init "u") "A").1 with
                requests :=
                  eraseReq 0 (Connection.request (ConnectionData.init "u") "A").1.requests,
                cells := setCell (Connection.request (ConnectionData.init "u") "A").1.cells 0
                  (RequestEntry.set_response
                    ((Connection.request (ConnectionData.init "u") "A").1.cells 0)
                    "A-reply|x").1 },
            { noEffects with
                woken := (RequestEntry.set_response
                  ((Connection.request (ConnectionData.init "u") "A").1.cells 0)
                  "A-reply|x").2 }) := by
  have h := received_parse_remove_resolve
    (Connection.request (ConnectionData.init "u") "A").1 "0|A-reply|x"
  have h2 := h.2 "0" "A-reply|x" (by decide)
  exact ⟨h2.1, h2.2.1,
    (h2.2.2.2 0 (by decide)).2 { request := "0|A", future_state := 0 } (by decide)⟩

/-- Claim C1: the `Msg::Measured` completion sweep is fatal exactly when some
pending future-state entry whose weak reference still resolves has its
realized marker (element slot attached) disagreeing with its rendered marker;
agreement on every live entry is equivalent to the sweep completing, so a
divergence is never silently tolerated. -/
theorem measured_sweep_marker_consistency_fatal (m : MeasurerData) :
    Measurer.update MeasMsg.Measured m = none ↔
      ∃ i ∈ m.futures, ∃ it, m.heap[i]? = some it ∧ it.futureAlive = true ∧
        it.divAttached ≠ it.rendered := by
  have hiff := sweepFutures_eq_none_iff m.futures m.heap
  have hupd : Measurer.update MeasMsg.Measured m = none ↔
      sweepFutures m.heap m.futures = none := by
    cases hs : sweepFutures m.heap m.futures with
    | none => simp [Measurer.update, hs]
    | some t =>
      obtain ⟨hp, wk, flt⟩ := t
      simp [Measurer.update, hs]
  rw [hupd, hiff, List.any_eq_true]
  constructor
  · rintro ⟨i, hi, hmm⟩
    refine ⟨i, hi, ?_⟩
    cases hget : m.heap[i]? with
    | none =>
      rw [markerMismatchB, hget] at hmm
      exact absurd hmm (by simp)
    | some it =>
      rw [markerMismatchB, hget] at hmm
      simp only [Bool.and_eq_true, bne_iff_ne] at hmm
      exact ⟨it, rfl, hmm.1, hmm.2⟩
  · rintro ⟨i, hi, it, hget, halive, hne⟩
    refine ⟨i, hi, ?_⟩
    rw [markerMismatchB, hget]
    simp [halive, hne]

/-- Witness for C1: a concrete live measurement whose element got attached
while its rendered marker was never set makes the sweep panic. -/
theorem measured_sweep_witness :
    Measurer.update MeasMsg.Measured mAttached = none :=
  (measured_sweep_marker_consistency_fatal mAttached).mpr
    ⟨0, by decide, ⟨"a", true, false, none, false, true⟩, by decide, rfl, by decide⟩

/-- Claim C9: a registered measurement item whose caller handles were dropped
before realization is absent from the sequence produced by the next view call
(and from the surviving measurement collection), its future-state entry is
dropped by the next completion sweep, and no wake for it is ever collected. -/
theorem dropped_item_absent_and_unwoken (m : MeasurerData) (i : Nat) (it : MeasItem)
    (hget : m.heap[i]? = some it) (hh : it.handleAlive = false)
    (hf : it.futureAlive = false) :
    i ∉ (Measurer.view m).2 ∧
    i ∉ (Measurer.view m).1.measurements ∧
    ∀ m' eff, Measurer.update MeasMsg.Measured m = some (m', eff) →
      i ∉ m'.futures ∧ ∀ w, (i, w) ∉ eff.woken := by
  have halive : itemAlive m.heap i = false := by
    rw [itemAlive, hget]
    simp [hh, hf]
  have hview : i ∉ m.measurements.filter (fun j => itemAlive m.heap j) := by
    intro hmem
    have hmem2 := (List.mem_filter.mp hmem).2
    rw [halive] at hmem2
    exact absurd hmem2 (by simp)
  refine ⟨hview, hview, ?_⟩
  intro m' eff hup
  cases hs : sweepFutures m.heap m.futures with
  | none => simp [Measurer.update, hs] at hup
  | some t =>
    obtain ⟨hp, wk, flt⟩ := t
    simp only [Measurer.update, hs, Option.some.injEq, Prod.mk.injEq] at hup
    obtain ⟨rfl, rfl⟩ := hup
    have hdead : ∀ it', m.heap[i]? = some it' → it'.futureAlive = false := by
      intro it' hit'
      rw [hget] at hit'
      simp only [Option.some.injEq] at hit'
      exact hit' ▸ hf
    exact sweepFutures_dead_skipped i m.futures m.heap hp wk flt hdead hs

/-- Witness for C9: a concrete dropped measurement is skipped by view and by
the completion sweep, and its waker is never collected. -/
theorem dropped_item_witness :
    0 ∉ (Measurer.view mDropped).2 ∧
    0 ∉ (Measurer.view mDropped).1.measurements ∧
    0 ∉ (⟨[⟨"a", false, false, none, false, false⟩], [0], []⟩ : MeasurerData).futures ∧
    (0, 5) ∉ (⟨[], false, true, false⟩ : MeasEffects).woken := by
  have h := dropped_item_absent_and_unwoken mDropped 0
    ⟨"a", false, false, none, false, false⟩ (by decide) rfl rfl
  have h3 := h.2.2 ⟨[⟨"a", false, false, none, false, false⟩], [0], []⟩
    ⟨[], false, true, false⟩ (by decide)
  exact ⟨h.1, h.2.1, h3.1, h3.2 5⟩

/-- Claim C10: `MeasureFuture::poll` is non-consuming: once the element slot
is attached, every poll returns `Ready` with the same measurement handle and
leaves the state untouched (so the ready state is never reset), while before
attachment every poll records the caller's waker and returns `Pending`. -/
theorem measure_future_poll_nonconsuming (m : MeasurerData) (i w w' : Nat)
    (it : MeasItem) (hget : m.heap[i]? = some it) :
    (it.divAttached = true →
      MeasureFuture.poll m i w = some (PollRes.Ready i, m) ∧
      MeasureFuture.poll m i w' = some (PollRes.Ready i, m)) ∧
    (it.divAttached = false →
      MeasureFuture.poll m i w =
        some (PollRes.Pending,
              { m with heap := m.heap.set i { it with waker := some w } })) := by
  constructor
  · intro hatt
    constructor <;> simp [MeasureFuture.poll, hget, hatt]
  · intro hatt
    simp [MeasureFuture.poll, hget, hatt]

/-- Witness for C10: polling a concrete realized measurement twice yields
`Ready` with the same handle both times and does not change the state;
polling an unrealized one records the waker and is pending. -/
theorem measure_poll_witness :
    MeasureFuture.poll mRealized 0 7 = some (PollRes.Ready 0, mRealized) ∧
    MeasureFuture.poll mRealized 0 9 = some (PollRes.Ready 0, mRealized) ∧
    MeasureFuture.poll (Measurer.measure measInit "a").1 0 7 =
      some (PollRes.Pending,
        { (Measurer.measure measInit "a").1 with
            heap := (Measurer.measure measInit "a").1.heap.set 0
              ⟨"a", false, false, some 7, false, true⟩ }) := by
  have h1 := (measure_future_poll_nonconsuming mRealized 0 7 9
    ⟨"a", true, true, none, false, true⟩ (by decide)).1 rfl
  have h2 := (measure_future_poll_nonconsuming (Measurer.measure measInit "a").1 0 7 9
    ⟨"a", false, false, none, false, true⟩ (by decide)).2 rfl
  exact ⟨h1.1, h1.2, h2⟩
